import Mathlib

/-!
Verification of the board-game resolution pipeline (bgg_client.py,
ddg_client.py, web_client.py, register.py, utils.py).

Strings are modelled as `List Char` (`Str`).  Python's string methods used by
the code (`lower`, `strip`, `split`, `replace`, `startswith`, `in`, `title`,
`isdigit`) are embedded below on `Str`; `lower` and `title` use `Char.toLower`
and `Char.toUpper`, which agree with Python on ASCII input.  Network and LLM
effects are supplied as oracles, and the resolver is embedded as a pure
function that also returns the trace of outbound operations it performed.
-/

/-- Python strings, modelled as lists of characters. -/
abbrev Str := List Char

/-- Python `str.lower()` (ASCII-accurate). -/
def lowerStr (s : Str) : Str := s.map Char.toLower

/-- Whether a character counts as whitespace for Python `str.strip()`. -/
def isPySpace (c : Char) : Bool := c.isWhitespace

/-- Python `str.strip()`: drop whitespace from both ends. -/
def stripStr (s : Str) : Str :=
  ((s.dropWhile isPySpace).reverse.dropWhile isPySpace).reverse

/-- Python `sub in s` (substring containment). -/
def containsSub (s sub : Str) : Bool :=
  s.tails.any (fun t => sub.isPrefixOf t)

/-- Fuelled core of Python `s.replace(sub, "")`: scan left to right and drop
each non-overlapping occurrence of `sub`.  Structural recursion on the fuel
keeps the definition kernel-evaluable; `removeAll` supplies fuel `s.length`,
which is enough because every step consumes at least one character. -/
def removeAllFuel (sub : Str) : Nat → Str → Str
  | 0, s => s
  | _ + 1, [] => []
  | fuel + 1, c :: rest =>
    if sub ≠ [] ∧ sub.isPrefixOf (c :: rest) then
      removeAllFuel sub fuel (List.drop (sub.length - 1) rest)
    else
      c :: removeAllFuel sub fuel rest

/-- Python `s.replace(sub, "")` (the code only ever replaces by the empty
string). -/
def removeAll (sub s : Str) : Str := removeAllFuel sub s.length s

/-- Python `s.split(sep)` for a one-character separator: keeps empty
segments, `split` of the empty string is `[""]`. -/
def splitOnChar (sep : Char) : Str → List Str
  | [] => [[]]
  | c :: rest =>
    match splitOnChar sep rest with
    | [] => [[]]
    | h :: t => if c = sep then [] :: h :: t else (c :: h) :: t

/-- Python `s.isdigit()` (ASCII digits): nonempty and all digits. -/
def isDigitStr (s : Str) : Bool := s ≠ [] && s.all Char.isDigit

/-!
## Catalog scorer (`is_likely_primary`, bgg_client.py lines 18-42)
-/

/-- The expansion/edition markers tested with `in` (bgg_client.py line 26). -/
def expansionMarkers : List Str :=
  ["promo".toList, "expansion".toList, "exp.".toList,
   " – ".toList, ": ".toList, " - ".toList]

/-- The edition suffixes stripped from the lowercased name
(bgg_client.py lines 29-38), in source order. -/
def editionSuffixes : List Str :=
  [": second edition".toList, " – second edition".toList,
   ": 2nd edition".toList, " – 2nd edition".toList,
   ": 3rd edition".toList, " – 3rd edition".toList,
   " (second edition)".toList, " (3rd edition)".toList]

/-- The `name_stripped` value: the lowercased name after `replace`-ing every
edition suffix by the empty string, in source order. -/
def stripEditionSuffixes (name_lower : Str) : Str :=
  editionSuffixes.foldl (fun s suffix => removeAll suffix s) name_lower

/-- `is_likely_primary` (bgg_client.py lines 18-42): the candidate score,
computed exactly as the sequential Python function does. -/
def is_likely_primary (name query : Str) : Int :=
  let name_lower := lowerStr name
  let query_lower := lowerStr query
  let score : Int := 0
  let score := if name_lower = query_lower then score + 100
    else if query_lower.isPrefixOf name_lower then score + 80
    else score
  let score := if expansionMarkers.any (fun x => containsSub name_lower x) then
      score - 50
    else score
  let name_stripped := stripEditionSuffixes name_lower
  let score := if name_stripped = query_lower ∨ query_lower.isPrefixOf name_stripped then
      score + 70
    else score
  score

/-- Spec-side component: the exact-match bonus (+100) or, mutually
exclusively, the prefix-match bonus (+80). -/
def exactOrPrefixBonus (name query : Str) : Int :=
  if lowerStr name = lowerStr query then 100
  else if (lowerStr query).isPrefixOf (lowerStr name) then 80
  else 0

/-- Spec-side component: the −50 penalty when the lowercased name contains
any expansion/edition marker. -/
def expansionPenalty (name : Str) : Int :=
  if expansionMarkers.any (fun x => containsSub (lowerStr name) x) then -50 else 0

/-- Spec-side component: the +70 bonus when the suffix-stripped lowercased
name equals or prefix-matches the lowercased query. -/
def strippedEditionBonus (name query : Str) : Int :=
  if stripEditionSuffixes (lowerStr name) = lowerStr query ∨
      (lowerStr query).isPrefixOf (stripEditionSuffixes (lowerStr name)) then 70
  else 0

/-!
## Ranking and detail probing (bgg_client.py lines 44-131 / 162-191)

A scored search item, as collected from either search tier.
-/

/-- One scored search candidate (`{"id": …, "name": …, "score": …}`). -/
structure ScoredCand where
  id : Str
  name : Str
  score : Int
deriving DecidableEq, Repr

/-- Insert one candidate into an already-ranked list, keeping it before the
first candidate whose score is not larger.  Folding this from the right is a
stable descending sort: Python's `sorted(key=score, reverse=True)` is a
stable sort by the same preorder, and stable sorts by one preorder agree. -/
def insertByScore (c : ScoredCand) : List ScoredCand → List ScoredCand
  | [] => [c]
  | d :: rest =>
    if d.score ≤ c.score then c :: d :: rest else d :: insertByScore c rest

/-- `sorted(candidates, key=lambda x: x["score"], reverse=True)`
(bgg_client.py lines 109 and 169). -/
def rankCands (l : List ScoredCand) : List ScoredCand :=
  l.foldr insertByScore []

/-- The detail-probing loop (bgg_client.py lines 116-131): visit ranked
candidates in order and return the first id whose detail fetch (the oracle
`detailOk`) succeeds. -/
def probeCands (detailOk : Str → Bool) : List ScoredCand → Option Str
  | [] => none
  | c :: rest => if detailOk c.id then some c.id else probeCands detailOk rest

/-!
## Alias dictionary and candidate extraction (bgg_client.py lines 333-356,
utils.py `load_alias`)
-/

/-- The alias store: a JSON object, Chinese name → pipe-delimited English
names.  Modelled as an insertion-ordered association list with (as for a
Python dict) unique keys. -/
abbrev AliasDict := List (Str × Str)

/-- `alias_dict.get(cn_name, "")`. -/
def lookupAlias (d : AliasDict) (k : Str) : Str :=
  match d.find? (fun p => p.fst = k) with
  | some p => p.snd
  | none => []

/-- The dictionary step of candidate extraction (bgg_client.py lines
333-342): strip the entry; if non-empty, pipe-split it, strip each segment
and keep the non-empty ones, with `from_alias = True`. -/
def aliasCands (aliasD : AliasDict) (cn_name : Str) : List Str × Bool :=
  let raw := stripStr (lookupAlias aliasD cn_name)
  if raw ≠ [] then
    (((splitOnChar '|' raw).map stripStr).filter (fun c => c ≠ []), true)
  else ([], false)

/-!
## The resolver (`resolve_boardgame_by_cn_name`, bgg_client.py lines 327-437)

Oracles package the outbound operations; the resolver also returns the trace
of operations it issued, so that ordering claims are statable.
-/

/-- A scraping-search hit (`{"id": …, "name": …, "url": …}` returned by
`bgg_search_by_name`). -/
structure Hit where
  id : Str
  name : Str
  url : Str
deriving DecidableEq, Repr

/-- One outbound operation of the resolver. -/
inductive Ev where
  /-- `fetch_english_candidates_from_ddg` (web search + LLM). -/
  | ddgFetch (q : Str)
  /-- `bgg_search_api_by_name` for one candidate. -/
  | apiSearch (q : Str)
  /-- `bgg_thing_details_api` for one id. -/
  | apiDetail (id : Str)
  /-- `bgg_search_by_name` (scraping search) for one candidate. -/
  | scrapeSearch (q : Str)
  /-- `bgg_thing_details` (scraping detail) for one url. -/
  | scrapeDetail (url : Str)
deriving DecidableEq, Repr

/-- Whether an event belongs to the structured-API loop. -/
def Ev.isApi : Ev → Bool
  | .apiSearch _ => true
  | .apiDetail _ => true
  | _ => false

/-- Whether an event is a scraping-search call. -/
def Ev.isScrapeSearch : Ev → Bool
  | .scrapeSearch _ => true
  | _ => false

/-- Whether an event belongs to the scraping fallback (search or detail). -/
def Ev.isScrape : Ev → Bool
  | .scrapeSearch _ => true
  | .scrapeDetail _ => true
  | _ => false

/-- Whether an event is the web-search/LLM extraction call. -/
def Ev.isDdg : Ev → Bool
  | .ddgFetch _ => true
  | _ => false

/-- The outbound operations the resolver may perform.  `Except Unit`
models a Python call that may raise; `bgg_search_by_name`,
`bgg_thing_details` and `bgg_thing_details_api` catch all their own
exceptions and return `None`, so a plain `Option` suffices for them, while
`bgg_search_api_by_name` and the extractor may raise into the resolver.
`Det` abstracts the detail record a successful fetch returns. -/
structure ResolverOracle (Det : Type) where
  /-- `fetch_english_candidates_from_ddg`: `(candidates, extracted_cn_name)`
  on success, or a raised exception. -/
  ddg : Str → Except Unit (List Str × Str)
  /-- `bgg_search_api_by_name`: an optional game id, or a raised exception. -/
  apiSearch : Str → Except Unit (Option Str)
  /-- `bgg_thing_details_api`: an optional detail record, or a raised
  exception (caught by the resolver's per-candidate handler). -/
  apiDetail : Str → Except Unit (Option Det)
  /-- `bgg_search_by_name`: an optional hit (never raises). -/
  scrapeSearch : Str → Option Hit
  /-- `bgg_thing_details`: an optional detail record (never raises). -/
  scrapeDetail : Str → Option Det

/-- The structured-API loop (bgg_client.py lines 363-381): for each
candidate in order, search for an id and fetch its details; the first usable
detail record wins; any exception or missing result moves to the next
candidate.  Returns the result and the trace of API events. -/
def apiPhase {Det : Type} (oc : ResolverOracle Det) : List Str → Option Det × List Ev
  | [] => (none, [])
  | q :: rest =>
    match oc.apiSearch q with
    | .ok (some gid) =>
      match oc.apiDetail gid with
      | .ok (some d) => (some d, [Ev.apiSearch q, Ev.apiDetail gid])
      | .ok none =>
        ((apiPhase oc rest).fst, Ev.apiSearch q :: Ev.apiDetail gid :: (apiPhase oc rest).snd)
      | .error _ =>
        ((apiPhase oc rest).fst, Ev.apiSearch q :: Ev.apiDetail gid :: (apiPhase oc rest).snd)
    | .ok none => ((apiPhase oc rest).fst, Ev.apiSearch q :: (apiPhase oc rest).snd)
    | .error _ => ((apiPhase oc rest).fst, Ev.apiSearch q :: (apiPhase oc rest).snd)

/-- The scraping-search loop (bgg_client.py lines 385-393): for each
candidate in order, try the scraping search; the first hit breaks the loop
(together with its `final_query`). -/
def scrapePhase {Det : Type} (oc : ResolverOracle Det) : List Str → Option (Str × Hit) × List Ev
  | [] => (none, [])
  | q :: rest =>
    match oc.scrapeSearch q with
    | some hit => (some (q, hit), [Ev.scrapeSearch q])
    | none => ((scrapePhase oc rest).fst, Ev.scrapeSearch q :: (scrapePhase oc rest).snd)

/-- A failure record (`bgg_failed: True` dict).  The provenance strings
(`_source`, `_name_source`, `_bgg_source`) are presentation-only and are
elided. -/
structure FailureRec where
  name : Str
  cn_name : Str
  bgg_id : Option Str
  bgg_url : Option Str
  bgg_failed : Bool
deriving DecidableEq, Repr

/-- A terminal value of the resolver: `None`, a failure record, or a detail
record (the success dict; its provenance annotations are elided). -/
inductive ResolveOut (Det : Type) where
  | noResult
  | failure (f : FailureRec)
  | game (d : Det)
deriving DecidableEq, Repr

/-- Candidate acquisition (bgg_client.py lines 333-356): the dictionary step
and, only when it yields no candidates, the web-search/LLM step — whose
exception is NOT caught (there is no try/except around the call at line
346).  Returns `(candidates, extracted_cn_name, from_alias)` and the trace. -/
def extractedCands {Det : Type} (oc : ResolverOracle Det) (aliasD : AliasDict)
    (cn_name : Str) : Except Unit (List Str × Str × Bool) × List Ev :=
  let cands0 := (aliasCands aliasD cn_name).fst
  let fromAlias := (aliasCands aliasD cn_name).snd
  if cands0 = [] then
    match oc.ddg cn_name with
    | .error e => (.error e, [Ev.ddgFetch cn_name])
    | .ok (dc, ecn) => (.ok (dc, ecn, fromAlias), [Ev.ddgFetch cn_name])
  else (.ok (cands0, cn_name, fromAlias), [])

/-- The resolver body after candidate acquisition (bgg_client.py lines
355-433): terminal `None` on an empty candidate list; the structured-API
loop; then the scraping-search loop; then either the "no hit" failure record
(named by the first candidate), or the detail fetch of the single hit, whose
failure yields the hit-named failure record. -/
def resolveWithCands {Det : Type} (oc : ResolverOracle Det) (candidates : List Str)
    (ecn : Str) (_fromAlias : Bool) : Except Unit (ResolveOut Det) × List Ev :=
  if candidates = [] then (.ok .noResult, [])
  else
    match apiPhase oc candidates with
    | (some d, evs) => (.ok (.game d), evs)
    | (none, evsA) =>
      match scrapePhase oc candidates with
      | (none, evsS) =>
        let f : FailureRec :=
          { name := candidates.headD [], cn_name := ecn,
            bgg_id := none, bgg_url := none, bgg_failed := true }
        (.ok (.failure f), evsA ++ evsS)
      | (some (_final_query, hit), evsS) =>
        match oc.scrapeDetail hit.url with
        | some d => (.ok (.game d), evsA ++ evsS ++ [Ev.scrapeDetail hit.url])
        | none =>
          let f : FailureRec :=
            { name := hit.name, cn_name := ecn,
              bgg_id := some hit.id, bgg_url := some hit.url, bgg_failed := true }
          (.ok (.failure f), evsA ++ evsS ++ [Ev.scrapeDetail hit.url])

/-- `resolve_boardgame_by_cn_name` (bgg_client.py lines 327-437):
candidate acquisition, then the loops.  An `.error` value is an exception
escaping the resolver to its caller.  `fromAlias` only feeds the elided
provenance strings. -/
def resolve_boardgame_by_cn_name {Det : Type} (oc : ResolverOracle Det)
    (aliasD : AliasDict) (cn_name : Str) : Except Unit (ResolveOut Det) × List Ev :=
  match extractedCands oc aliasD cn_name with
  | (.error e, evs) => (.error e, evs)
  | (.ok (cands, ecn, fromAlias), evs) =>
    ((resolveWithCands oc cands ecn fromAlias).fst,
     evs ++ (resolveWithCands oc cands ecn fromAlias).snd)

/-!
## Scraping search (`bgg_search_by_name`, web_client.py lines 12-63)
-/

/-- An anchor element of the search page: its `href` and its text. -/
structure Anchor where
  href : Str
  text : Str
deriving DecidableEq, Repr

/-- `BGG_BASE_URL` (utils.py line 22). -/
def bggBaseUrl : Str := "https://boardgamegeek.com".toList

/-- Python `s.replace("-", " ")`: a one-character replace is a map. -/
def dashToSpace (s : Str) : Str := s.map (fun c => if c = '-' then ' ' else c)

/-- Core of Python `str.title()`: uppercase an alphabetic character right
after a non-alphabetic one, lowercase the rest (ASCII-accurate).  The flag
records whether the previous character was alphabetic. -/
def pyTitleAux : Bool → Str → Str
  | _, [] => []
  | prevAlpha, c :: rest =>
    let c' := if c.isAlpha then (if prevAlpha then c.toLower else c.toUpper) else c
    c' :: pyTitleAux c.isAlpha rest

/-- Python `str.title()`. -/
def pyTitle (s : Str) : Str := pyTitleAux false s

/-- The anchor scan of `bgg_search_by_name` (web_client.py lines 30-59):
take the first anchor whose href contains `/boardgame/` (but neither
`/boardgamegame` nor `/boardgameexpansion`), splits on `/` into at least 3
parts with a purely numeric third part; the hit's name is the stripped
anchor text or, when that is empty and a fourth part exists, the title-cased
dashless fourth part; a root-relative link is made absolute. -/
def bgg_search_by_name (anchors : List Anchor) : Option Hit :=
  match anchors with
  | [] => none
  | a :: rest =>
    let parts := splitOnChar '/' a.href
    if containsSub a.href ("/boardgame/".toList)
        ∧ ¬ containsSub a.href ("/boardgamegame".toList)
        ∧ ¬ containsSub a.href ("/boardgameexpansion".toList)
        ∧ 3 ≤ parts.length ∧ isDigitStr (parts.getD 2 []) then
      let name0 := stripStr a.text
      let name :=
        if name0 = [] ∧ 3 < parts.length then pyTitle (dashToSpace (parts.getD 3 []))
        else name0
      let link := if a.href.headD ' ' = '/' then bggBaseUrl ++ a.href else a.href
      some { id := parts.getD 2 [], name := name, url := link }
    else bgg_search_by_name rest

/-!
## LLM model selection (`fetch_english_candidates_from_ddg`,
ddg_client.py lines 39-51)
-/

/-- The fallback loop (ddg_client.py lines 46-51): the first model whose
name is not `"replay"`; `none` when the loop never assigns `model_config`
(every model is named `"replay"`), which in Python leaves the variable
unbound. -/
def fallbackModel {Cfg : Type} : List (Str × Cfg) → Option (Str × Cfg)
  | [] => none
  | (n, c) :: rest => if n ≠ "replay".toList then some (n, c) else fallbackModel rest

/-- Model selection (ddg_client.py lines 39-51): the model named `"utils"`
when available, otherwise the first model not named `"replay"`.  `models` is
the insertion-ordered dict of available models. -/
def chooseModel {Cfg : Type} (models : List (Str × Cfg)) : Option (Str × Cfg) :=
  match models.find? (fun p => p.fst = "utils".toList) with
  | some p => some p
  | none => fallbackModel models

/-!
## Average-weight formatting (`bgg_thing_details`, web_client.py lines
119-127)
-/

/-- The value `stats.get("avgweight", "0")` can take: a JSON string, a JSON
number (of abstract numeric type `A`), or the key can be missing. -/
inductive AvgWeightVal (A : Type) where
  | jstr (s : Str)
  | jnum (x : A)
  | missing
deriving DecidableEq, Repr

/-- web_client.py lines 119-127: a missing key defaults to the string
`"0"`; then only a non-empty string value is parsed as a float (`parse`)
and formatted to two decimals (`fmt`); everything else — a parse failure or
a non-string value, JSON numbers included — yields `"N/A"`.
`parse` and `fmt` abstract Python's `float` and `f"{x:.2f}"`. -/
def avgWeightField {A : Type} (parse : Str → Option A) (fmt : A → Str)
    (v : AvgWeightVal A) : Str :=
  let avgweight := match v with
    | .missing => AvgWeightVal.jstr ("0".toList)
    | x => x
  match avgweight with
  | .jstr s =>
    if s ≠ [] then
      match parse s with
      | some x => fmt x
      | none => "N/A".toList
    else "N/A".toList
  | _ => "N/A".toList

/-- All ASCII digits, nonempty, read as a natural number.  (Helper for the
model of Python `float`.) -/
def parseDigits : Str → Option Nat
  | [] => none
  | l =>
    if l.all Char.isDigit then
      some (l.foldl (fun n c => 10 * n + (c.toNat - '0'.toNat)) 0)
    else none

/-- A model of Python `float(s)` on plain decimal literals: optional sign,
digits around at most one dot.  The value is returned exactly as
`(numerator, k)` meaning `numerator / 10^k`.  Exponent, `inf`/`nan` and
underscore forms are treated as unparseable (none arise from the scraped
JSON this field reads). -/
def pyFloatParse (s : Str) : Option (Int × Nat) :=
  let t := stripStr s
  let signed : Bool × Str :=
    match t with
    | '-' :: rest => (true, rest)
    | '+' :: rest => (false, rest)
    | _ => (false, t)
  let withSign (n : Nat) : Int := if signed.fst then -(n : Int) else (n : Int)
  match splitOnChar '.' signed.snd with
  | [ip] => (parseDigits ip).map (fun n => (withSign n, 0))
  | [ip, fp] =>
    if ip = [] ∧ fp = [] then none
    else
      match (if ip = [] then some 0 else parseDigits ip),
            (if fp = [] then some 0 else parseDigits fp) with
      | some ni, some nf => some (withSign (ni * 10 ^ fp.length + nf), fp.length)
      | _, _ => none
  | _ => none

/-- Decimal digits of a natural number (most significant first). -/
def natDigits (n : Nat) : Str := Nat.toDigits 10 n

/-- A model of Python `f"{x:.2f}"` on the exact value `num / 10^k`:
round to hundredths (half to even, as Python rounds) and print with
exactly two decimals. -/
def fmtTwo (v : Int × Nat) : Str :=
  let num := v.fst * 100
  let den : Int := 10 ^ v.snd
  let fl := Int.fdiv num den
  let rem := num - fl * den
  let hundredths := if den < 2 * rem then fl + 1
    else if 2 * rem < den then fl
    else if fl % 2 = 0 then fl else fl + 1
  let m := hundredths.natAbs
  let sign : Str := if hundredths < 0 then ['-'] else []
  let frac := m % 100
  sign ++ natDigits (m / 100) ++ ['.'] ++
    (if frac < 10 then '0' :: natDigits frac else natDigits frac)

/-!
## Registration command (`BoardgameRegisterCommand.execute` and
`save_alias`, register.py)
-/

/-- The delete keywords (register.py line 83). -/
def deleteWords : List Str :=
  ["删除".toList, "delete".toList, "remove".toList, "del".toList]

/-- What the register command does to the alias file.  `save_alias` always
rewrites the whole file (register.py lines 15-24), so the file content after
a successful save is exactly the dict passed to it. -/
inductive RegOutcome where
  /-- `清空`: the alias file is removed (register.py lines 73-80). -/
  | cleared
  /-- A delete keyword with an existing key: the file is rewritten without
  that key. -/
  | deleted (newFile : AliasDict)
  /-- A delete keyword but the key is absent. -/
  | deleteMissing
  /-- Missing Chinese or English name. -/
  | formatError
  /-- The English name has no alphanumeric character. -/
  | alnumError
  /-- The key already has a (truthy) entry: refuse to overwrite. -/
  | alreadyExists
  /-- The file is rewritten with exactly this dict. -/
  | saved (newFile : AliasDict)
deriving DecidableEq, Repr

/-- `BoardgameRegisterCommand.execute` (register.py lines 67-149) as its
effect on the alias file.  `existing` is the file's current dict, `cn`/`en`
the stripped command arguments. -/
def registerExecute (existing : AliasDict) (cn en : Str) : RegOutcome :=
  if cn = "清空".toList then .cleared
  else if deleteWords.contains (lowerStr en) then
    if cn = [] then .formatError
    else if existing.any (fun p => p.fst = cn) then
      .deleted (existing.filter (fun p => p.fst ≠ cn))
    else .deleteMissing
  else if cn = [] then .formatError
  else if en = [] then .formatError
  else if ¬ en.any Char.isAlphanum then .alnumError
  else
    match (existing.find? (fun p => p.fst = cn)).map Prod.snd with
    | some existing_en =>
      if existing_en ≠ [] then .alreadyExists
      else .saved [(cn, en)]
    | none => .saved [(cn, en)]

/-!
## Return-shape of the extractor on zero models (ddg_client.py lines 34-37)
and the resolver's tuple unpacking (bgg_client.py line 346)
-/

/-- Just enough of Python's value universe to state the unpacking claim:
strings, lists and tuples. -/
inductive PyVal where
  | vstr (s : Str)
  | vlist (l : List PyVal)
  | vtuple (l : List PyVal)

/-- The value `fetch_english_candidates_from_ddg` returns, as a function of
the available models: with zero models it returns the bare empty list
(ddg_client.py lines 35-37); otherwise (abstracting the search/LLM pipeline
in between by its outcome `unique_candidates`, `cn_name`) the declared
2-tuple `(unique_candidates, cn_name)` (line 132). -/
def fetchDdgReturnShape {Cfg : Type} (models : List (Str × Cfg))
    (unique_candidates : List Str) (cn_name : Str) : PyVal :=
  match models with
  | [] => PyVal.vlist []
  | _ :: _ => PyVal.vtuple [PyVal.vlist (unique_candidates.map PyVal.vstr), PyVal.vstr cn_name]

/-- Python tuple unpacking `a, b = v` (bgg_client.py line 346): succeeds
exactly on a sequence of length two, otherwise raises (ValueError). -/
def unpackTwo : PyVal → Except Unit (PyVal × PyVal)
  | .vtuple [a, b] => .ok (a, b)
  | .vlist [a, b] => .ok (a, b)
  | _ => .error ()

/-!
## LLM-response handling in the extractor (ddg_client.py lines 77-136)

The extractor's behaviour from the LLM call's outcome onwards, showing which
outcomes raise.
-/

/-- The generic-term stoplist `COMMON_TERMS_TO_FILTER`
(ddg_client.py lines 93-104). -/
def commonTermsToFilter : List Str :=
  ["tabletop game".toList, "board game".toList, "boardgame".toList,
   "card game".toList, "dice game".toList, "party game".toList,
   "strategy game".toList, "family game".toList, "game".toList,
   "tabletop".toList]

/-- The per-line filter on an extracted English name
(ddg_client.py lines 110-118): non-empty, its lowercased-stripped form not a
generic term, at least 3 characters, not starting with `http`. -/
def enNameOk (en_name : Str) : Bool :=
  en_name ≠ [] &&
  (let en_name_lower := stripStr (lowerStr en_name)
   ¬ commonTermsToFilter.contains en_name_lower &&
   3 ≤ en_name.length &&
   ¬ ("http".toList).isPrefixOf en_name_lower)

/-- One pass over the stripped non-empty lines (ddg_client.py lines
106-118): the last `中文名：` line sets `cn_name`, each acceptable
`英文名：` line appends a candidate. -/
def processLlmLines (lines : List Str) : Str × List Str :=
  lines.foldl
    (fun acc line =>
      if ("中文名：".toList).isPrefixOf line then
        (stripStr (removeAll ("中文名：".toList) line), acc.snd)
      else if ("英文名：".toList).isPrefixOf line then
        let en_name := stripStr (removeAll ("英文名：".toList) line)
        if en_name ≠ [] ∧ enNameOk en_name then (acc.fst, acc.snd ++ [en_name])
        else acc
      else acc)
    ([], [])

/-- De-duplication preserving first-seen order (ddg_client.py lines
123-128). -/
def dedupKeepFirst (l : List Str) : List Str :=
  l.foldl (fun acc n => if acc.contains n then acc else acc ++ [n]) []

/-- `fetch_english_candidates_from_ddg` from the LLM call onwards
(ddg_client.py lines 77-136): raises (`.error`) when the call did not
succeed, when the response is empty or whitespace, and when no candidate
survives filtering; otherwise returns the deduplicated candidates and the
extracted Chinese name.  The final `except … raise` (lines 134-136) re-raises
every such error to the extractor's caller. -/
def parseLlmResponse (success : Bool) (llm_response : Str) :
    Except Unit (List Str × Str) :=
  if ¬ success ∨ llm_response = [] ∨ stripStr llm_response = [] then .error ()
  else
    let lines := ((splitOnChar '\n' llm_response).map stripStr).filter (fun l => l ≠ [])
    let parsed := processLlmLines lines
    if parsed.snd = [] then .error ()
    else .ok (dedupKeepFirst parsed.snd, parsed.fst)

/-!
## Concrete instances used to exercise the embedding
-/

/-- An oracle whose extractor raises and whose catalog calls all miss. -/
def ocStub : ResolverOracle Nat :=
  { ddg := fun _ => .error (), apiSearch := fun _ => .ok none,
    apiDetail := fun _ => .ok none, scrapeSearch := fun _ => none,
    scrapeDetail := fun _ => none }

/-- An alias dictionary whose one entry is the non-empty string `"|"`:
it pipe-splits into two segments that are both empty after trimming. -/
def aliasPipe : AliasDict := [("山屋惊魂".toList, "|".toList)]

/-- An alias dictionary with a well-formed two-candidate entry. -/
def aliasTwo : AliasDict := [("卡坦".toList, " Katan | Catan ".toList)]

/-- An oracle whose structured-API calls all miss and whose scraping search
hits exactly on the query `"Catan"`; the scraping detail fetch fails. -/
def ocScrapeHit : ResolverOracle Nat :=
  { ddg := fun _ => .error (), apiSearch := fun _ => .ok none,
    apiDetail := fun _ => .ok none,
    scrapeSearch := fun q =>
      if q = "Catan".toList then
        some { id := "13".toList, name := "Catan".toList,
               url := "https://boardgamegeek.com/boardgame/13".toList }
      else none,
    scrapeDetail := fun _ => none }

/-- A search page with a single matching anchor whose text is blank and
whose href has no fourth segment: the derived hit name is empty. -/
def anchorsEmptyName : List Anchor :=
  [{ href := "/boardgame/123".toList, text := "  ".toList }]

/-- An oracle whose scraping search scans `anchorsEmptyName` and whose
detail fetch fails. -/
def ocAnchorHit : ResolverOracle Nat :=
  { ddg := fun _ => .error (), apiSearch := fun _ => .ok none,
    apiDetail := fun _ => .ok none,
    scrapeSearch := fun _ => bgg_search_by_name anchorsEmptyName,
    scrapeDetail := fun _ => none }

/-- The failure record the resolver produces from `anchorsEmptyName` when
the hit's detail fetch fails: its `name` is empty. -/
def emptyNameFailure : FailureRec :=
  { name := [], cn_name := "卡坦".toList, bgg_id := some ("123".toList),
    bgg_url := some ("https://boardgamegeek.com/boardgame/123".toList),
    bgg_failed := true }

/-!
## Helper lemmas
-/

theorem insertByScore_perm (c : ScoredCand) (l : List ScoredCand) :
    (insertByScore c l).Perm (c :: l) := by
  induction l with
  | nil => exact List.Perm.refl _
  | cons d rest ih =>
    simp only [insertByScore]
    split
    · exact List.Perm.refl _
    · exact (ih.cons d).trans (List.Perm.swap c d rest)

theorem rankCands_perm (l : List ScoredCand) : (rankCands l).Perm l := by
  induction l with
  | nil => exact List.Perm.refl _
  | cons c rest ih => exact (insertByScore_perm c (rankCands rest)).trans (ih.cons c)

theorem insertByScore_pairwise (c : ScoredCand) (l : List ScoredCand)
    (h : l.Pairwise (fun a b => b.score ≤ a.score)) :
    (insertByScore c l).Pairwise (fun a b => b.score ≤ a.score) := by
  induction l with
  | nil => simp [insertByScore]
  | cons d rest ih =>
    rw [List.pairwise_cons] at h
    obtain ⟨hd, hrest⟩ := h
    simp only [insertByScore]
    split
    · rename_i hle
      refine List.Pairwise.cons ?_ (List.Pairwise.cons hd hrest)
      intro x hx
      rcases List.mem_cons.mp hx with rfl | hx
      · exact hle
      · exact le_trans (hd x hx) hle
    · rename_i hgt
      push_neg at hgt
      refine List.Pairwise.cons ?_ (ih hrest)
      intro x hx
      rcases List.mem_cons.mp ((insertByScore_perm c rest).mem_iff.mp hx) with rfl | hx
      · exact le_of_lt hgt
      · exact hd x hx

theorem rankCands_pairwise (l : List ScoredCand) :
    (rankCands l).Pairwise (fun a b => b.score ≤ a.score) := by
  induction l with
  | nil => simp [rankCands]
  | cons c rest ih => exact insertByScore_pairwise c (rankCands rest) ih

theorem filter_insertByScore (c : ScoredCand) (l : List ScoredCand) (s : Int) :
    (insertByScore c l).filter (fun x => x.score == s) =
      if c.score == s then c :: l.filter (fun x => x.score == s)
      else l.filter (fun x => x.score == s) := by
  induction l with
  | nil =>
    by_cases hc : c.score = s <;> simp [insertByScore, List.filter_cons, hc]
  | cons d rest ih =>
    simp only [insertByScore]
    split
    · by_cases hc : c.score = s <;> simp [List.filter_cons, hc]
    · rename_i hgt
      push_neg at hgt
      by_cases hc : c.score = s
      · have hds : ¬ d.score = s := by omega
        simp [List.filter_cons, hds, hc, ih]
      · by_cases hds : d.score = s <;> simp [List.filter_cons, hds, hc, ih]

theorem rankCands_filter_stable (l : List ScoredCand) (s : Int) :
    (rankCands l).filter (fun x => x.score == s) =
      l.filter (fun x => x.score == s) := by
  induction l with
  | nil => rfl
  | cons c rest ih =>
    show (insertByScore c (rankCands rest)).filter _ = _
    rw [filter_insertByScore]
    by_cases hc : c.score = s <;> simp [List.filter_cons, hc, ih]

theorem probeCands_eq_find (detailOk : Str → Bool) (l : List ScoredCand) :
    probeCands detailOk l = (l.find? (fun c => detailOk c.id)).map ScoredCand.id := by
  induction l with
  | nil => rfl
  | cons c rest ih =>
    simp only [probeCands]
    by_cases h : detailOk c.id
    · simp [h, List.find?_cons_of_pos]
    · simp [h, List.find?_cons_of_neg, ih]

/-!
## Claims
-/

/-- C4: for every name and query, `is_likely_primary` is the sum of three
independent components — the mutually exclusive exact-match (+100) or
prefix-match (+80) bonus, the −50 expansion/edition-marker penalty, and the
+70 suffix-stripped match bonus — and the first component never awards both
bonuses at once. -/
theorem is_likely_primary_decomposition (name query : Str) :
    is_likely_primary name query =
      exactOrPrefixBonus name query + expansionPenalty name +
        strippedEditionBonus name query ∧
    (exactOrPrefixBonus name query = 100 ∨ exactOrPrefixBonus name query = 80 ∨
      exactOrPrefixBonus name query = 0) := by
  simp only [is_likely_primary, exactOrPrefixBonus, expansionPenalty,
    strippedEditionBonus]
  constructor
  · split_ifs <;> omega
  · split_ifs <;> simp

/-- C5: ranking is a stable descending sort — the ranked list is a
permutation of the collected list, sorted by score descending, preserving
the relative order of equal scores (stated as: filtering by any fixed score
commutes with ranking, and checked on the `[50, 80, 80, 30]` instance) —
and detail probing visits the ranked list in order, returning the first id
whose detail fetch succeeds. -/
theorem ranking_is_stable_descending_and_probe_first (l : List ScoredCand)
    (detailOk : Str → Bool) :
    (rankCands l).Perm l ∧
    (rankCands l).Pairwise (fun a b => b.score ≤ a.score) ∧
    (∀ s : Int, (rankCands l).filter (fun x => x.score == s) =
      l.filter (fun x => x.score == s)) ∧
    rankCands [⟨"v".toList, [], 50⟩, ⟨"w".toList, [], 80⟩,
        ⟨"x".toList, [], 80⟩, ⟨"y".toList, [], 30⟩] =
      [⟨"w".toList, [], 80⟩, ⟨"x".toList, [], 80⟩,
        ⟨"v".toList, [], 50⟩, ⟨"y".toList, [], 30⟩] ∧
    probeCands detailOk (rankCands l) =
      ((rankCands l).find? (fun c => detailOk c.id)).map ScoredCand.id :=
  ⟨rankCands_perm l, rankCands_pairwise l,
   fun s => rankCands_filter_stable l s, by decide,
   probeCands_eq_find detailOk (rankCands l)⟩

theorem fallbackModel_first_non_replay {Cfg : Type} (models : List (Str × Cfg))
    (hex : ∃ p ∈ models, p.fst ≠ "replay".toList) :
    ∃ p l₁ l₂, fallbackModel models = some p ∧ models = l₁ ++ p :: l₂ ∧
      p.fst ≠ "replay".toList ∧ ∀ r ∈ l₁, r.fst = "replay".toList := by
  induction models with
  | nil =>
    obtain ⟨p, hp, -⟩ := hex
    exact absurd hp (List.not_mem_nil p)
  | cons a rest ih =>
    obtain ⟨n, cfg⟩ := a
    by_cases hn : n = "replay".toList
    · have hex' : ∃ p ∈ rest, p.fst ≠ "replay".toList := by
        obtain ⟨p, hp, hne⟩ := hex
        rcases List.mem_cons.mp hp with rfl | hp
        · exact absurd hn hne
        · exact ⟨p, hp, hne⟩
      obtain ⟨p, l₁, l₂, h1, h2, h3, h4⟩ := ih hex'
      refine ⟨p, (n, cfg) :: l₁, l₂, ?_, by simp [h2], h3, ?_⟩
      · show fallbackModel ((n, cfg) :: rest) = some p
        unfold fallbackModel
        rw [if_neg (not_not_intro hn)]
        exact h1
      · intro r hr
        rcases List.mem_cons.mp hr with rfl | hr
        · exact hn
        · exact h4 r hr
    · refine ⟨(n, cfg), [], rest, ?_, rfl, hn, by simp⟩
      show fallbackModel ((n, cfg) :: rest) = some (n, cfg)
      unfold fallbackModel
      rw [if_pos hn]

/-- C7 counterexample: with `{"embedding": 0}` as the available models, the
key `"utils"` is unavailable and the fallback selects the model named
`"embedding"` — which the claim says is excluded. -/
theorem chooseModel_selects_embedding_counterexample :
    chooseModel [("embedding".toList, (0 : Nat))] =
      some ("embedding".toList, (0 : Nat)) ∧
    "embedding".toList ≠ "utils".toList := by
  exact ⟨rfl, by decide⟩

/-- C7 (amended): when `"utils"` is unavailable and some model is not named
`"replay"`, the extractor falls back to the first available model whose name
is not `"replay"` — every model it skips is named `"replay"`, and in
particular a model named `"embedding"` is not excluded. -/
theorem chooseModel_fallback_excludes_only_replay {Cfg : Type}
    (models : List (Str × Cfg))
    (hu : ∀ p ∈ models, p.fst ≠ "utils".toList)
    (hex : ∃ p ∈ models, p.fst ≠ "replay".toList) :
    ∃ p l₁ l₂, chooseModel models = some p ∧ models = l₁ ++ p :: l₂ ∧
      p.fst ≠ "replay".toList ∧ ∀ r ∈ l₁, r.fst = "replay".toList := by
  have hfind : models.find? (fun p => p.fst = "utils".toList) = none := by
    rw [List.find?_eq_none]
    intro p hp
    simpa using hu p hp
  obtain ⟨p, l₁, l₂, h1, h2, h3, h4⟩ := fallbackModel_first_non_replay models hex
  refine ⟨p, l₁, l₂, ?_, h2, h3, h4⟩
  unfold chooseModel
  rw [hfind]
  exact h1

/-- C7 witness: on the concrete model dict `{"replay": 0, "deepseek": 1}`
(no `"utils"`), the fallback picks a model not named `"replay"`. -/
theorem chooseModel_fallback_excludes_only_replay_witness :
    ∃ p l₁ l₂,
      chooseModel [("replay".toList, (0 : Nat)), ("deepseek".toList, 1)] = some p ∧
      [("replay".toList, (0 : Nat)), ("deepseek".toList, 1)] = l₁ ++ p :: l₂ ∧
      p.fst ≠ "replay".toList ∧ ∀ r ∈ l₁, r.fst = "replay".toList :=
  chooseModel_fallback_excludes_only_replay _ (by decide) (by decide)

/-- C8 counterexample: an average weight arriving as the JSON number 3.5
(the exact value 35/10) yields `"N/A"`, not the two-decimal `"3.50"` the
claim requires for every numeric value. -/
theorem avgWeight_json_number_counterexample :
    avgWeightField pyFloatParse fmtTwo (AvgWeightVal.jnum ((35 : Int), (1 : Nat))) =
      "N/A".toList ∧
    fmtTwo ((35 : Int), (1 : Nat)) = "3.50".toList ∧
    "N/A".toList ≠ "3.50".toList := by
  refine ⟨rfl, by decide, by decide⟩

/-- C8 (amended): the two-decimal formatting applies exactly when the value
arrives as a non-empty string that parses as a float; a JSON number (or an
unparseable string) yields `"N/A"`, and a missing key defaults to the string
`"0"` and is formatted `"0.00"`. -/
theorem avgWeight_formats_strings_only {A : Type} (parse : Str → Option A)
    (fmt : A → Str) :
    (∀ (s : Str) (x : A), s ≠ [] → parse s = some x →
      avgWeightField parse fmt (AvgWeightVal.jstr s) = fmt x) ∧
    (∀ s : Str, parse s = none →
      avgWeightField parse fmt (AvgWeightVal.jstr s) = "N/A".toList) ∧
    (∀ x : A, avgWeightField parse fmt (AvgWeightVal.jnum x) = "N/A".toList) ∧
    avgWeightField pyFloatParse fmtTwo AvgWeightVal.missing = "0.00".toList ∧
    avgWeightField pyFloatParse fmtTwo (AvgWeightVal.jstr ("3.456".toList)) =
      "3.46".toList := by
  refine ⟨?_, ?_, ?_, by decide, by decide⟩
  · intro s x hs hx
    simp [avgWeightField, hs, hx]
  · intro s hp
    by_cases hs : s = [] <;> simp [avgWeightField, hs, hp]
  · intro x
    rfl

/-- C8 witness: the string `"3.5"` is formatted `"3.50"`; the unparseable
string `"abc"` yields `"N/A"`. -/
theorem avgWeight_formats_strings_only_witness :
    avgWeightField pyFloatParse fmtTwo (AvgWeightVal.jstr ("3.5".toList)) =
      "3.50".toList ∧
    avgWeightField pyFloatParse fmtTwo (AvgWeightVal.jstr ("abc".toList)) =
      "N/A".toList :=
  ⟨((avgWeight_formats_strings_only pyFloatParse fmtTwo).1 ("3.5".toList)
      ((35 : Int), (1 : Nat)) (by decide) (by decide)).trans (by decide),
   (avgWeight_formats_strings_only pyFloatParse fmtTwo).2.1 ("abc".toList) (by decide)⟩

/-- C9: when the registration command adds an alias for a Chinese name not
already present (and the clear/delete/validation branches do not fire), the
alias file is overwritten with exactly the one new pair, and every
previously registered pair is dropped from the saved file. -/
theorem registerExecute_add_drops_previous (existing : AliasDict) (cn en : Str)
    (hclear : cn ≠ "清空".toList)
    (hdel : ¬ deleteWords.contains (lowerStr en))
    (hcn : cn ≠ []) (hen : en ≠ [])
    (halnum : en.any Char.isAlphanum = true)
    (habsent : ∀ p ∈ existing, p.fst ≠ cn) :
    registerExecute existing cn en = RegOutcome.saved [(cn, en)] ∧
    ∀ p ∈ existing, p ∉ [(cn, en)] := by
  have hfind : existing.find? (fun p => p.fst = cn) = none := by
    rw [List.find?_eq_none]
    intro p hp
    simpa using habsent p hp
  constructor
  · unfold registerExecute
    rw [if_neg hclear, if_neg hdel, if_neg hcn, if_neg hen,
      if_neg (not_not_intro halnum), hfind]
    rfl
  · intro p hp hmem
    exact habsent p hp (by rw [List.mem_singleton.mp hmem])

/-- C9 witness: registering `卡坦 → Catan` over a file already holding
`山屋惊魂 → Betrayal` saves a file with only the new pair. -/
theorem registerExecute_add_drops_previous_witness :
    registerExecute [("山屋惊魂".toList, "Betrayal".toList)]
        ("卡坦".toList) ("Catan".toList) =
      RegOutcome.saved [("卡坦".toList, "Catan".toList)] ∧
    ∀ p ∈ [("山屋惊魂".toList, "Betrayal".toList)],
      p ∉ [("卡坦".toList, "Catan".toList)] :=
  registerExecute_add_drops_previous _ _ _ (by decide) (by decide) (by decide)
    (by decide) (by decide) (by decide)

/-- C10: with zero available models the extractor returns the bare empty
list instead of the declared 2-tuple, so the resolver's two-element
destructuring of the return value raises instead of producing candidates;
with at least one model the return value is a 2-tuple and unpacking
succeeds. -/
theorem fetchDdg_zero_models_unpack_raises :
    (∀ (uc : List Str) (cn : Str),
      fetchDdgReturnShape ([] : List (Str × Nat)) uc cn = PyVal.vlist []) ∧
    (∀ (uc : List Str) (cn : Str),
      unpackTwo (fetchDdgReturnShape ([] : List (Str × Nat)) uc cn) =
        Except.error ()) ∧
    (∀ (m : Str × Nat) (ms : List (Str × Nat)) (uc : List Str) (cn : Str),
      unpackTwo (fetchDdgReturnShape (m :: ms) uc cn) =
        Except.ok (PyVal.vlist (uc.map PyVal.vstr), PyVal.vstr cn)) :=
  ⟨fun _ _ => rfl, fun _ _ => rfl, fun _ _ _ _ => rfl⟩

theorem apiPhase_cases {Det : Type} (oc : ResolverOracle Det) (q : Str)
    (rest : List Str) :
    (∃ gid d, oc.apiSearch q = .ok (some gid) ∧ oc.apiDetail gid = .ok (some d) ∧
      apiPhase oc (q :: rest) = (some d, [Ev.apiSearch q, Ev.apiDetail gid])) ∨
    (∃ gid, oc.apiSearch q = .ok (some gid) ∧
      (∀ d, oc.apiDetail gid ≠ .ok (some d)) ∧
      apiPhase oc (q :: rest) = ((apiPhase oc rest).fst,
        Ev.apiSearch q :: Ev.apiDetail gid :: (apiPhase oc rest).snd)) ∨
    ((∀ gid, oc.apiSearch q ≠ .ok (some gid)) ∧
      apiPhase oc (q :: rest) = ((apiPhase oc rest).fst,
        Ev.apiSearch q :: (apiPhase oc rest).snd)) := by
  rcases hs : oc.apiSearch q with u | og
  · exact Or.inr (Or.inr ⟨by simp [hs], by simp [apiPhase, hs]⟩)
  · rcases og with _ | gid
    · exact Or.inr (Or.inr ⟨by simp [hs], by simp [apiPhase, hs]⟩)
    · rcases hd : oc.apiDetail gid with v | od
      · exact Or.inr (Or.inl ⟨gid, rfl, by simp [hd], by simp [apiPhase, hs, hd]⟩)
      · rcases od with _ | d
        · exact Or.inr (Or.inl ⟨gid, rfl, by simp [hd], by simp [apiPhase, hs, hd]⟩)
        · exact Or.inl ⟨gid, d, rfl, hd, by simp [apiPhase, hs, hd]⟩

theorem apiPhase_events {Det : Type} (oc : ResolverOracle Det) (cands : List Str) :
    ∀ e ∈ (apiPhase oc cands).snd, e.isApi = true := by
  induction cands with
  | nil => simp [apiPhase]
  | cons q rest ih =>
    intro e he
    rcases apiPhase_cases oc q rest with ⟨gid, d, -, -, heq⟩ | ⟨gid, -, -, heq⟩ | ⟨-, heq⟩ <;>
      rw [heq] at he
    · rcases List.mem_cons.mp he with rfl | he
      · rfl
      · rcases List.mem_cons.mp he with rfl | he
        · rfl
        · simp at he
    · rcases List.mem_cons.mp he with rfl | he
      · rfl
      · rcases List.mem_cons.mp he with rfl | he
        · rfl
        · exact ih e he
    · rcases List.mem_cons.mp he with rfl | he
      · rfl
      · exact ih e he

theorem apiPhase_exhaustive {Det : Type} (oc : ResolverOracle Det)
    (cands : List Str) (hnone : (apiPhase oc cands).fst = none) :
    ∀ c ∈ cands, Ev.apiSearch c ∈ (apiPhase oc cands).snd := by
  induction cands with
  | nil => simp
  | cons q rest ih =>
    intro c hc
    rcases apiPhase_cases oc q rest with ⟨gid, d, -, -, heq⟩ | ⟨gid, -, -, heq⟩ | ⟨-, heq⟩ <;>
      rw [heq] at hnone ⊢
    · simp at hnone
    · simp only at hnone
      rcases List.mem_cons.mp hc with rfl | hc
      · exact List.mem_cons_self _ _
      · exact List.mem_cons_of_mem _ (List.mem_cons_of_mem _ (ih hnone c hc))
    · simp only at hnone
      rcases List.mem_cons.mp hc with rfl | hc
      · exact List.mem_cons_self _ _
      · exact List.mem_cons_of_mem _ (ih hnone c hc)

theorem scrapePhase_spec {Det : Type} (oc : ResolverOracle Det) (cands : List Str) :
    ((scrapePhase oc cands).fst = none ∧
      (scrapePhase oc cands).snd = cands.map Ev.scrapeSearch ∧
      ∀ c ∈ cands, oc.scrapeSearch c = none) ∨
    (∃ pre fq post hit, cands = pre ++ fq :: post ∧
      (∀ c ∈ pre, oc.scrapeSearch c = none) ∧ oc.scrapeSearch fq = some hit ∧
      (scrapePhase oc cands).fst = some (fq, hit) ∧
      (scrapePhase oc cands).snd = pre.map Ev.scrapeSearch ++ [Ev.scrapeSearch fq]) := by
  induction cands with
  | nil => left; exact ⟨rfl, rfl, by simp⟩
  | cons q rest ih =>
    rcases hq : oc.scrapeSearch q with _ | hit
    · rcases ih with ⟨h1, h2, h3⟩ | ⟨pre, fq, post, hit, hc, hpre, hfq, h1, h2⟩
      · left
        refine ⟨by simp [scrapePhase, hq, h1], by simp [scrapePhase, hq, h2], ?_⟩
        intro c hcc
        rcases List.mem_cons.mp hcc with rfl | hcc
        · exact hq
        · exact h3 c hcc
      · right
        refine ⟨q :: pre, fq, post, hit, by simp [hc], ?_, hfq,
          by simp [scrapePhase, hq, h1], by simp [scrapePhase, hq, h2]⟩
        intro c hcc
        rcases List.mem_cons.mp hcc with rfl | hcc
        · exact hq
        · exact hpre c hcc
    · right
      exact ⟨[], q, rest, hit, rfl, by simp, hq,
        by simp [scrapePhase, hq], by simp [scrapePhase, hq]⟩

theorem scrapePhase_events {Det : Type} (oc : ResolverOracle Det) (cands : List Str) :
    ∀ e ∈ (scrapePhase oc cands).snd, e.isScrapeSearch = true := by
  rcases scrapePhase_spec oc cands with ⟨-, h2, -⟩ | ⟨pre, fq, -, -, -, -, -, -, h2⟩ <;>
    rw [h2] <;> intro e he
  · obtain ⟨c, -, rfl⟩ := List.mem_map.mp he
    rfl
  · rcases List.mem_append.mp he with he | he
    · obtain ⟨c, -, rfl⟩ := List.mem_map.mp he
      rfl
    · rcases List.mem_singleton.mp he with rfl
      rfl

theorem extractedCands_events {Det : Type} (oc : ResolverOracle Det)
    (aliasD : AliasDict) (q : Str) :
    ∀ e ∈ (extractedCands oc aliasD q).snd, e.isDdg = true := by
  intro e he
  unfold extractedCands at he
  by_cases h : (aliasCands aliasD q).fst = []
  · rw [if_pos h] at he
    rcases hd : oc.ddg q with u | ⟨dc, ecn⟩ <;> rw [hd] at he <;>
      rcases List.mem_singleton.mp he with rfl <;> rfl
  · rw [if_neg h] at he
    simp at he

theorem resolveWithCands_cases {Det : Type} (oc : ResolverOracle Det)
    (cands : List Str) (ecn : Str) (fa : Bool) :
    (cands = [] ∧ resolveWithCands oc cands ecn fa = (.ok .noResult, [])) ∨
    (cands ≠ [] ∧ ∃ d, (apiPhase oc cands).fst = some d ∧
      resolveWithCands oc cands ecn fa =
        (.ok (.game d), (apiPhase oc cands).snd)) ∨
    (cands ≠ [] ∧ (apiPhase oc cands).fst = none ∧
      (((scrapePhase oc cands).fst = none ∧
        resolveWithCands oc cands ecn fa =
          (.ok (.failure (FailureRec.mk (cands.headD []) ecn none none true)),
           (apiPhase oc cands).snd ++ (scrapePhase oc cands).snd)) ∨
       (∃ fq hit, (scrapePhase oc cands).fst = some (fq, hit) ∧
         ((∃ d, oc.scrapeDetail hit.url = some d ∧
            resolveWithCands oc cands ecn fa = (.ok (.game d),
              (apiPhase oc cands).snd ++ (scrapePhase oc cands).snd ++
                [Ev.scrapeDetail hit.url])) ∨
          (oc.scrapeDetail hit.url = none ∧
            resolveWithCands oc cands ecn fa =
              (.ok (.failure (FailureRec.mk hit.name ecn (some hit.id)
                (some hit.url) true)),
               (apiPhase oc cands).snd ++ (scrapePhase oc cands).snd ++
                 [Ev.scrapeDetail hit.url])))))) := by
  by_cases hc : cands = []
  · exact Or.inl ⟨hc, by simp [resolveWithCands, hc]⟩
  · right
    rcases hap : apiPhase oc cands with ⟨r1, evsA⟩
    rcases r1 with _ | d
    · right
      refine ⟨hc, rfl, ?_⟩
      rcases hsp : scrapePhase oc cands with ⟨r2, evsS⟩
      rcases r2 with _ | ⟨fq, hit⟩
      · left
        refine ⟨rfl, ?_⟩
        unfold resolveWithCands
        rw [if_neg hc, hap, hsp]
      · right
        refine ⟨fq, hit, rfl, ?_⟩
        rcases hsd : oc.scrapeDetail hit.url with _ | d
        · right
          refine ⟨rfl, ?_⟩
          unfold resolveWithCands
          rw [if_neg hc, hap, hsp]
          simp [hsd]
        · left
          refine ⟨d, rfl, ?_⟩
          unfold resolveWithCands
          rw [if_neg hc, hap, hsp]
          simp [hsd]
    · left
      refine ⟨hc, d, rfl, ?_⟩
      unfold resolveWithCands
      rw [if_neg hc, hap]

theorem Ev.isApi_isDdg {e : Ev} (h : e.isApi = true) : e.isDdg = false := by
  cases e <;> simp [Ev.isApi, Ev.isDdg] at h ⊢

theorem Ev.isScrapeSearch_isDdg {e : Ev} (h : e.isScrapeSearch = true) :
    e.isDdg = false := by
  cases e <;> simp [Ev.isScrapeSearch, Ev.isDdg] at h ⊢

theorem Ev.isApi_isScrape {e : Ev} (h : e.isApi = true) : e.isScrape = false := by
  cases e <;> simp [Ev.isApi, Ev.isScrape] at h ⊢

theorem Ev.isScrapeSearch_isScrape {e : Ev} (h : e.isScrapeSearch = true) :
    e.isScrape = true := by
  cases e <;> simp [Ev.isScrapeSearch, Ev.isScrape] at h ⊢

theorem resolveWithCands_no_ddg {Det : Type} (oc : ResolverOracle Det)
    (cands : List Str) (ecn : Str) (fa : Bool) :
    ∀ e ∈ (resolveWithCands oc cands ecn fa).snd, e.isDdg = false := by
  intro e he
  rcases resolveWithCands_cases oc cands ecn fa with ⟨-, heq⟩ | ⟨-, d, -, heq⟩ |
    ⟨-, -, ⟨-, heq⟩ | ⟨fq, hit, -, ⟨d, -, heq⟩ | ⟨-, heq⟩⟩⟩ <;> rw [heq] at he
  · simp at he
  · exact Ev.isApi_isDdg (apiPhase_events oc cands e he)
  · rcases List.mem_append.mp he with he | he
    · exact Ev.isApi_isDdg (apiPhase_events oc cands e he)
    · exact Ev.isScrapeSearch_isDdg (scrapePhase_events oc cands e he)
  · rcases List.mem_append.mp he with he | he
    · rcases List.mem_append.mp he with he | he
      · exact Ev.isApi_isDdg (apiPhase_events oc cands e he)
      · exact Ev.isScrapeSearch_isDdg (scrapePhase_events oc cands e he)
    · rcases List.mem_singleton.mp he with rfl
      rfl
  · rcases List.mem_append.mp he with he | he
    · rcases List.mem_append.mp he with he | he
      · exact Ev.isApi_isDdg (apiPhase_events oc cands e he)
      · exact Ev.isScrapeSearch_isDdg (scrapePhase_events oc cands e he)
    · rcases List.mem_singleton.mp he with rfl
      rfl

/-- C1 counterexample: the dictionary entry `"|"` for `山屋惊魂` is a
non-empty string, yet the resolver still issues the web-search/LLM call
(its two pipe-segments are blank, so the candidate list comes out empty and
the code falls through to the search-and-AI step). -/
theorem alias_pipe_entry_invokes_web_counterexample :
    lookupAlias aliasPipe ("山屋惊魂".toList) ≠ [] ∧
    Ev.ddgFetch ("山屋惊魂".toList) ∈
      (resolve_boardgame_by_cn_name ocStub aliasPipe ("山屋惊魂".toList)).snd := by
  decide

/-- C1 (amended): for every query whose dictionary entry yields at least one
segment that is non-blank after trimming, the extractor returns exactly the
non-empty trimmed pipe-segments in order, with `from_alias` true and the
extracted Chinese name equal to the query, and the web-search/LLM call is
never made; an entry that is blank or whose segments are all blank falls
through to the search-and-AI step. -/
theorem alias_entry_with_nonblank_segment_short_circuits {Det : Type}
    (oc : ResolverOracle Det) (aliasD : AliasDict) (q : Str)
    (hsegs : ((splitOnChar '|' (stripStr (lookupAlias aliasD q))).map stripStr).filter
        (fun c => c ≠ []) ≠ []) :
    extractedCands oc aliasD q =
      (Except.ok
        (((splitOnChar '|' (stripStr (lookupAlias aliasD q))).map stripStr).filter
          (fun c => c ≠ []), q, true), []) ∧
    ∀ q', Ev.ddgFetch q' ∉ (resolve_boardgame_by_cn_name oc aliasD q).snd := by
  have hraw : stripStr (lookupAlias aliasD q) ≠ [] := by
    intro h
    rw [h] at hsegs
    exact hsegs (by decide)
  have hali : aliasCands aliasD q =
      (((splitOnChar '|' (stripStr (lookupAlias aliasD q))).map stripStr).filter
        (fun c => c ≠ []), true) := by
    unfold aliasCands
    rw [if_pos hraw]
  have hext : extractedCands oc aliasD q =
      (Except.ok
        (((splitOnChar '|' (stripStr (lookupAlias aliasD q))).map stripStr).filter
          (fun c => c ≠ []), q, true), []) := by
    unfold extractedCands
    rw [hali]
    exact if_neg hsegs
  refine ⟨hext, ?_⟩
  intro q' hq'
  unfold resolve_boardgame_by_cn_name at hq'
  rw [hext] at hq'
  have hq2 : Ev.ddgFetch q' ∈ (resolveWithCands oc
      (((splitOnChar '|' (stripStr (lookupAlias aliasD q))).map stripStr).filter
        (fun c => c ≠ [])) q true).snd := by
    simpa using hq'
  have := resolveWithCands_no_ddg oc _ q true (Ev.ddgFetch q') hq2
  simp [Ev.isDdg] at this

/-- C1 witness: dictionary entry `" Katan | Catan "` yields exactly
`["Katan", "Catan"]`, `from_alias` true, no web-search call. -/
theorem alias_entry_short_circuits_witness :
    extractedCands ocStub aliasTwo ("卡坦".toList) =
      (Except.ok
        (((splitOnChar '|' (stripStr (lookupAlias aliasTwo ("卡坦".toList)))).map
            stripStr).filter (fun c => c ≠ []), "卡坦".toList, true), []) ∧
    ∀ q', Ev.ddgFetch q' ∉
      (resolve_boardgame_by_cn_name ocStub aliasTwo ("卡坦".toList)).snd :=
  alias_entry_with_nonblank_segment_short_circuits ocStub aliasTwo
    ("卡坦".toList) (by decide)

/-- C2 counterexample: with an empty dictionary and a raising extractor the
resolver itself raises (models the missing try/except around
bgg_client.py line 346) rather than terminating with `None`. -/
theorem resolver_extraction_error_escapes_counterexample :
    (resolve_boardgame_by_cn_name ocStub ([] : AliasDict) ("肥肠面".toList)).fst =
      Except.error () ∧
    (resolve_boardgame_by_cn_name ocStub ([] : AliasDict) ("肥肠面".toList)).fst ≠
      Except.ok ResolveOut.noResult := by
  have h0 : (resolve_boardgame_by_cn_name ocStub ([] : AliasDict)
      ("肥肠面".toList)).fst = Except.error () := rfl
  refine ⟨h0, ?_⟩
  rw [h0]
  simp

/-- C2 (amended): when the dictionary step yields no candidates and the
web-search/LLM extractor raises, the resolver does not catch the exception —
it propagates to the resolver's caller (there is no try/except around the
call at bgg_client.py line 346); and the extractor raises precisely in the
three modes the claim lists: LLM call unsuccessful, blank response, or no
candidate surviving the filter. -/
theorem resolver_propagates_extraction_error {Det : Type}
    (oc : ResolverOracle Det) (aliasD : AliasDict) (q : Str)
    (hno : (aliasCands aliasD q).fst = [])
    (herr : oc.ddg q = Except.error ()) :
    (resolve_boardgame_by_cn_name oc aliasD q).fst = Except.error () ∧
    (∀ resp : Str, parseLlmResponse false resp = Except.error ()) ∧
    parseLlmResponse true [] = Except.error () ∧
    parseLlmResponse true ("英文名：ab".toList) = Except.error () := by
  refine ⟨?_, ?_, rfl, rfl⟩
  · unfold resolve_boardgame_by_cn_name
    unfold extractedCands
    rw [if_pos hno, herr]
  · intro resp
    unfold parseLlmResponse
    rw [if_pos (Or.inl (by simp))]

/-- C2 witness: a concrete run with an empty dictionary and a raising
extractor. -/
theorem resolver_propagates_extraction_error_witness :
    (resolve_boardgame_by_cn_name ocStub ([] : AliasDict) ("山".toList)).fst =
      Except.error () ∧
    (∀ resp : Str, parseLlmResponse false resp = Except.error ()) ∧
    parseLlmResponse true [] = Except.error () ∧
    parseLlmResponse true ("英文名：ab".toList) = Except.error () :=
  resolver_propagates_extraction_error ocStub [] ("山".toList) rfl rfl

/-- C3: in every resolution run, the trace decomposes into extraction
events, then structured-API events, then scraping events; scraping events
exist only when the API phase came back empty after having issued an API
search for every candidate; and the scraping-search calls are exactly the
none-returning prefix of the candidates plus the first hit — later
candidates receive no scraping search, even though the hit's detail fetch
(which may fail) still follows. -/
theorem resolver_scrape_after_api_stops_at_hit {Det : Type}
    (oc : ResolverOracle Det) (aliasD : AliasDict) (q : Str)
    (cands : List Str) (ecn : Str) (fa : Bool)
    (hc : (extractedCands oc aliasD q).fst = Except.ok (cands, ecn, fa)) :
    ∃ evsP evsA evsS,
      (resolve_boardgame_by_cn_name oc aliasD q).snd = evsP ++ evsA ++ evsS ∧
      (∀ e ∈ evsP, e.isDdg = true) ∧
      (∀ e ∈ evsA, e.isApi = true) ∧
      (∀ e ∈ evsS, e.isScrape = true) ∧
      (evsS ≠ [] → (apiPhase oc cands).fst = none ∧
        ∀ c ∈ cands, Ev.apiSearch c ∈ evsA) ∧
      (evsS = [] ∨
        (evsS = cands.map Ev.scrapeSearch ∧ ∀ c ∈ cands, oc.scrapeSearch c = none) ∨
        (∃ pre fq post hit, cands = pre ++ fq :: post ∧
          (∀ c ∈ pre, oc.scrapeSearch c = none) ∧ oc.scrapeSearch fq = some hit ∧
          evsS = pre.map Ev.scrapeSearch ++
            [Ev.scrapeSearch fq, Ev.scrapeDetail hit.url])) := by
  rcases hec : extractedCands oc aliasD q with ⟨r, evsP⟩
  rw [hec] at hc
  simp only at hc
  subst hc
  have hP : ∀ e ∈ evsP, e.isDdg = true := by
    have h := extractedCands_events oc aliasD q
    rw [hec] at h
    exact h
  have hsnd : (resolve_boardgame_by_cn_name oc aliasD q).snd =
      evsP ++ (resolveWithCands oc cands ecn fa).snd := by
    unfold resolve_boardgame_by_cn_name
    rw [hec]
  rw [hsnd]
  rcases resolveWithCands_cases oc cands ecn fa with ⟨hcn, heq⟩ | ⟨hcn, d, hap, heq⟩ |
    ⟨hcn, hap, ⟨hsp, heq⟩ | ⟨fq, hit, hsp, ⟨d, hsd, heq⟩ | ⟨hsd, heq⟩⟩⟩ <;> rw [heq]
  · exact ⟨evsP, [], [], by simp, hP, by simp, by simp, by simp, Or.inl rfl⟩
  · exact ⟨evsP, (apiPhase oc cands).snd, [], by simp, hP,
      apiPhase_events oc cands, by simp, by simp, Or.inl rfl⟩
  · rcases scrapePhase_spec oc cands with ⟨-, h2, h3⟩ | ⟨pre, fq, post, hit, -, -, -, h1, -⟩
    · exact ⟨evsP, (apiPhase oc cands).snd, (scrapePhase oc cands).snd, by simp, hP,
        apiPhase_events oc cands,
        fun e he => Ev.isScrapeSearch_isScrape (scrapePhase_events oc cands e he),
        fun _ => ⟨hap, apiPhase_exhaustive oc cands hap⟩,
        Or.inr (Or.inl ⟨h2, h3⟩)⟩
    · rw [hsp] at h1
      exact absurd h1 (by simp)
  · rcases scrapePhase_spec oc cands with ⟨h1, -, -⟩ |
      ⟨pre, fq', post, hit', hcands, hpre, hfq, h1, h2⟩
    · rw [hsp] at h1
      exact absurd h1 (by simp)
    · rw [hsp] at h1
      have hfq2 : fq' = fq ∧ hit' = hit := by
        have h3 := Option.some.inj h1
        exact ⟨(congrArg Prod.fst h3).symm, (congrArg Prod.snd h3).symm⟩
      obtain ⟨rfl, rfl⟩ := hfq2
      refine ⟨evsP, (apiPhase oc cands).snd,
        pre.map Ev.scrapeSearch ++ [Ev.scrapeSearch fq', Ev.scrapeDetail hit'.url],
        by rw [h2]; simp, hP, apiPhase_events oc cands, ?_,
        fun _ => ⟨hap, apiPhase_exhaustive oc cands hap⟩,
        Or.inr (Or.inr ⟨pre, fq', post, hit', hcands, hpre, hfq, rfl⟩)⟩
      intro e he
      rcases List.mem_append.mp he with he | he
      · obtain ⟨c, -, rfl⟩ := List.mem_map.mp he
        rfl
      · rcases List.mem_cons.mp he with rfl | he
        · rfl
        · rcases List.mem_singleton.mp he with rfl
          rfl
  · rcases scrapePhase_spec oc cands with ⟨h1, -, -⟩ |
      ⟨pre, fq', post, hit', hcands, hpre, hfq, h1, h2⟩
    · rw [hsp] at h1
      exact absurd h1 (by simp)
    · rw [hsp] at h1
      have hfq2 : fq' = fq ∧ hit' = hit := by
        have h3 := Option.some.inj h1
        exact ⟨(congrArg Prod.fst h3).symm, (congrArg Prod.snd h3).symm⟩
      obtain ⟨rfl, rfl⟩ := hfq2
      refine ⟨evsP, (apiPhase oc cands).snd,
        pre.map Ev.scrapeSearch ++ [Ev.scrapeSearch fq', Ev.scrapeDetail hit'.url],
        by rw [h2]; simp, hP, apiPhase_events oc cands, ?_,
        fun _ => ⟨hap, apiPhase_exhaustive oc cands hap⟩,
        Or.inr (Or.inr ⟨pre, fq', post, hit', hcands, hpre, hfq, rfl⟩)⟩
      intro e he
      rcases List.mem_append.mp he with he | he
      · obtain ⟨c, -, rfl⟩ := List.mem_map.mp he
        rfl
      · rcases List.mem_cons.mp he with rfl | he
        · rfl
        · rcases List.mem_singleton.mp he with rfl
          rfl

/-- C3 witness: a concrete run (two dictionary candidates, every structured
call missing, scraping hit on the second candidate, detail fetch failing). -/
theorem resolver_scrape_after_api_stops_at_hit_witness :
    ∃ evsP evsA evsS,
      (resolve_boardgame_by_cn_name ocScrapeHit aliasTwo ("卡坦".toList)).snd =
        evsP ++ evsA ++ evsS ∧
      (∀ e ∈ evsP, e.isDdg = true) ∧
      (∀ e ∈ evsA, e.isApi = true) ∧
      (∀ e ∈ evsS, e.isScrape = true) ∧
      (evsS ≠ [] →
        (apiPhase ocScrapeHit ["Katan".toList, "Catan".toList]).fst = none ∧
        ∀ c ∈ ["Katan".toList, "Catan".toList], Ev.apiSearch c ∈ evsA) ∧
      (evsS = [] ∨
        (evsS = ["Katan".toList, "Catan".toList].map Ev.scrapeSearch ∧
          ∀ c ∈ ["Katan".toList, "Catan".toList],
            ocScrapeHit.scrapeSearch c = none) ∨
        (∃ pre fq post hit,
          ["Katan".toList, "Catan".toList] = pre ++ fq :: post ∧
          (∀ c ∈ pre, ocScrapeHit.scrapeSearch c = none) ∧
          ocScrapeHit.scrapeSearch fq = some hit ∧
          evsS = pre.map Ev.scrapeSearch ++
            [Ev.scrapeSearch fq, Ev.scrapeDetail hit.url])) :=
  resolver_scrape_after_api_stops_at_hit ocScrapeHit aliasTwo ("卡坦".toList)
    ["Katan".toList, "Catan".toList] ("卡坦".toList) true rfl

/-- C6 counterexample: from a search page whose matching anchor has blank
text and a three-segment href, the scraping hit's derived name is empty;
when its detail fetch fails, the resolver's terminal failure record carries
that empty name — refuting "every FailureRecord carries a non-empty name". -/
theorem scrape_hit_failure_empty_name_counterexample :
    (resolve_boardgame_by_cn_name ocAnchorHit aliasTwo ("卡坦".toList)).fst =
      Except.ok (ResolveOut.failure emptyNameFailure) ∧
    emptyNameFailure.name = [] ∧
    emptyNameFailure.bgg_failed = true := by
  exact ⟨rfl, rfl, rfl⟩

/-- C6 (amended): every terminal resolver value is one of None, failure
record or game record by construction, and every failure record carries
`bgg_failed = true`; the no-scrape-hit failure is named by the first
candidate, which is non-empty whenever every candidate is a non-empty
string (true of both extraction paths of the code); but the failure kept
when the scraping hit's detail fetch fails carries the hit's anchor-derived
name, which can be empty. -/
theorem resolver_failure_record_names {Det : Type}
    (oc : ResolverOracle Det) (aliasD : AliasDict) (q : Str)
    (cands : List Str) (ecn : Str) (fa : Bool) (f : FailureRec)
    (hc : (extractedCands oc aliasD q).fst = Except.ok (cands, ecn, fa))
    (hne : ∀ c ∈ cands, c ≠ [])
    (hf : (resolve_boardgame_by_cn_name oc aliasD q).fst =
      Except.ok (ResolveOut.failure f)) :
    f.bgg_failed = true ∧
    ((scrapePhase oc cands).fst = none → f.name = cands.headD [] ∧ f.name ≠ []) ∧
    (∀ fq hit, (scrapePhase oc cands).fst = some (fq, hit) →
      f.name = hit.name ∧ oc.scrapeDetail hit.url = none) := by
  rcases hec : extractedCands oc aliasD q with ⟨r, evsP⟩
  rw [hec] at hc
  simp only at hc
  subst hc
  have hres : (resolve_boardgame_by_cn_name oc aliasD q).fst =
      (resolveWithCands oc cands ecn fa).fst := by
    unfold resolve_boardgame_by_cn_name
    rw [hec]
  rw [hres] at hf
  rcases resolveWithCands_cases oc cands ecn fa with ⟨hcn, heq⟩ | ⟨hcn, d, hap, heq⟩ |
    ⟨hcn, hap, ⟨hsp, heq⟩ | ⟨fq, hit, hsp, ⟨d, hsd, heq⟩ | ⟨hsd, heq⟩⟩⟩ <;>
    rw [heq] at hf
  · exact absurd hf (by simp)
  · exact absurd hf (by simp)
  · have hff : f = FailureRec.mk (cands.headD []) ecn none none true := by
      simpa using hf.symm
    subst hff
    refine ⟨rfl, fun _ => ⟨rfl, ?_⟩, fun fq hit hsp' => ?_⟩
    · cases cands with
      | nil => exact absurd rfl hcn
      | cons c cs =>
        simpa using hne c (List.mem_cons_self c cs)
    · rw [hsp] at hsp'
      exact absurd hsp' (by simp)
  · exact absurd hf (by simp)
  · have hff : f = FailureRec.mk hit.name ecn (some hit.id) (some hit.url) true := by
      simpa using hf.symm
    subst hff
    refine ⟨rfl, fun hnone => ?_, fun fq' hit' hsp' => ?_⟩
    · rw [hsp] at hnone
      exact absurd hnone (by simp)
    · rw [hsp] at hsp'
      have h3 := Option.some.inj hsp'
      have hh : hit = hit' := congrArg Prod.snd h3
      subst hh
      exact ⟨rfl, hsd⟩

/-- C6 witness: a concrete run whose scraping hit is named `"Catan"` and
whose detail fetch fails — the failure record carries that name and
`bgg_failed = true`. -/
theorem resolver_failure_record_names_witness :
    (FailureRec.mk ("Catan".toList) ("卡坦".toList) (some ("13".toList))
        (some ("https://boardgamegeek.com/boardgame/13".toList)) true).bgg_failed
      = true ∧
    ((scrapePhase ocScrapeHit ["Katan".toList, "Catan".toList]).fst = none →
      (FailureRec.mk ("Catan".toList) ("卡坦".toList) (some ("13".toList))
        (some ("https://boardgamegeek.com/boardgame/13".toList)) true).name =
        ["Katan".toList, "Catan".toList].headD [] ∧
      (FailureRec.mk ("Catan".toList) ("卡坦".toList) (some ("13".toList))
        (some ("https://boardgamegeek.com/boardgame/13".toList)) true).name ≠ []) ∧
    (∀ fq hit,
      (scrapePhase ocScrapeHit ["Katan".toList, "Catan".toList]).fst =
        some (fq, hit) →
      (FailureRec.mk ("Catan".toList) ("卡坦".toList) (some ("13".toList))
        (some ("https://boardgamegeek.com/boardgame/13".toList)) true).name =
        hit.name ∧
      ocScrapeHit.scrapeDetail hit.url = none) :=
  resolver_failure_record_names ocScrapeHit aliasTwo ("卡坦".toList)
    ["Katan".toList, "Catan".toList] ("卡坦".toList) true
    (FailureRec.mk ("Catan".toList) ("卡坦".toList) (some ("13".toList))
      (some ("https://boardgamegeek.com/boardgame/13".toList)) true)
    rfl (by decide) rfl
